import Mathlib

/-!
Verification of the schema-diffing core of `scripts/compare_schemas.py`:
the Path Walker (`walk_json`, `_json_type`), the per-file analysis
(`analyze_files`), the Schema Merger (`merge_schemas`) and the summary
derivations (`summarize_schema`).

Embedding conventions:
* A parsed JSON document is the inductive `JsonValue`; Python's `bool`,
  `int` and `float` become the disjoint constructors `bool`, `int` and
  `float` (the payload of `float` is a rational, which is irrelevant to
  type tagging), Python `dict` iteration becomes the field list of `obj`.
* Python string comparison (used by `sorted`) is lexicographic by code
  point; it is embedded as the relation `strle` below, defined by the
  executable lexicographic comparison `lexLe` on the character lists.
* A Python `set` is embedded as a `Finset String`; `sorted(s)` is
  `Finset.sort strle s`.
* Reading and JSON-parsing a file is an external effect; a corpus file is
  embedded as a pair of its name and the parse outcome
  (`Option JsonValue`, `none` meaning the raw text is not valid JSON),
  which is exactly the information `analyze_files` branches on.
-/

/-- Executable lexicographic comparison of two character lists by code
point, mirroring Python string comparison: the empty list is below
everything, otherwise compare head code points and recurse on ties. -/
def lexLe : List Char → List Char → Bool
  | [], _ => true
  | _ :: _, [] => false
  | a :: as, b :: bs =>
    if a.toNat < b.toNat then true
    else if b.toNat < a.toNat then false
    else lexLe as bs

/-- The order on `String` used to embed Python's `sorted` on strings. -/
def strle (s t : String) : Prop := lexLe s.data t.data = true

instance : DecidableRel strle :=
  fun s t => inferInstanceAs (Decidable (lexLe s.data t.data = true))

theorem char_toNat_inj {a b : Char} (h : a.toNat = b.toNat) : a = b :=
  Char.eq_of_val_eq (UInt32.eq_of_toBitVec_eq (BitVec.eq_of_toNat_eq h))

theorem lexLe_total : ∀ as bs : List Char, lexLe as bs = true ∨ lexLe bs as = true
  | [], _ => Or.inl rfl
  | _ :: _, [] => Or.inr rfl
  | a :: as, b :: bs => by
    rcases Nat.lt_trichotomy a.toNat b.toNat with h | h | h
    · left; simp [lexLe, h]
    · rcases lexLe_total as bs with ih | ih
      · left; simp [lexLe, h, ih]
      · right; simp [lexLe, h.symm, ih]
    · right; simp [lexLe, h]

theorem lexLe_antisymm : ∀ as bs : List Char,
    lexLe as bs = true → lexLe bs as = true → as = bs
  | [], [], _, _ => rfl
  | [], _ :: _, _, h2 => by simp [lexLe] at h2
  | _ :: _, [], h1, _ => by simp [lexLe] at h1
  | a :: as, b :: bs, h1, h2 => by
    rcases Nat.lt_trichotomy a.toNat b.toNat with h | h | h
    · simp [lexLe, h, Nat.not_lt_of_lt h] at h2
    · have htl := lexLe_antisymm as bs
        (by simpa [lexLe, h] using h1) (by simpa [lexLe, h.symm] using h2)
      rw [char_toNat_inj h, htl]
    · simp [lexLe, h, Nat.not_lt_of_lt h] at h1

theorem lexLe_trans : ∀ as bs cs : List Char,
    lexLe as bs = true → lexLe bs cs = true → lexLe as cs = true
  | [], _, _, _, _ => rfl
  | _ :: _, [], _, h1, _ => by simp [lexLe] at h1
  | _ :: _, _ :: _, [], _, h2 => by simp [lexLe] at h2
  | a :: as, b :: bs, c :: cs, h1, h2 => by
    rcases Nat.lt_trichotomy a.toNat b.toNat with hab | hab | hab <;>
      rcases Nat.lt_trichotomy b.toNat c.toNat with hbc | hbc | hbc
    · simp [lexLe, Nat.lt_trans hab hbc]
    · simp [lexLe, hbc ▸ hab]
    · simp [lexLe, hab, Nat.not_lt_of_lt hab] at h1
      simp [lexLe, hbc, Nat.not_lt_of_lt hbc] at h2
    · simp [lexLe, hab ▸ hbc]
    · have ih := lexLe_trans as bs cs
        (by simpa [lexLe, hab] using h1) (by simpa [lexLe, hbc] using h2)
      simp [lexLe, hab.trans hbc, ih]
    · simp [lexLe, hbc, Nat.not_lt_of_lt hbc] at h2
    · simp [lexLe, hab, Nat.not_lt_of_lt hab] at h1
    · simp [lexLe, hab, Nat.not_lt_of_lt hab] at h1
    · simp [lexLe, hab, Nat.not_lt_of_lt hab] at h1

instance : IsTotal String strle := ⟨fun s t => lexLe_total s.data t.data⟩

instance : IsTrans String strle := ⟨fun s t u => lexLe_trans s.data t.data u.data⟩

theorem string_data_inj {s t : String} (h : s.data = t.data) : s = t := by
  cases s; cases t; exact congrArg String.mk h

instance : IsAntisymm String strle :=
  ⟨fun s t h1 h2 => string_data_inj (lexLe_antisymm s.data t.data h1 h2)⟩

/-- Evaluation bridge for `Finset.sort strle` on concrete sets: if `L` is a
sorted duplicate-free listing of `s`, then sorting `s` yields `L`. -/
theorem finset_sort_eq (s : Finset String) (L : List String)
    (hs : List.Sorted strle L) (hnd : L.Nodup) (h : s = L.toFinset) :
    s.sort strle = L := by
  refine List.eq_of_perm_of_sorted ?_ (Finset.sort_sorted _ _) hs
  rw [← Multiset.coe_eq_coe, Finset.sort_eq, h]
  show (L.toFinset : Finset String).1 = (L : Multiset String)
  simp [List.toFinset, Multiset.toFinset, List.dedup_eq_self.mpr hnd]

/-- A parsed JSON value, as produced by `json.loads`: `null`, booleans,
numbers (Python `int` and `float` are separate constructors, as they are
separate Python types), strings, arrays and objects. -/
inductive JsonValue where
  | null
  | bool (b : Bool)
  | int (n : Int)
  | float (q : ℚ)
  | str (s : String)
  | arr (elems : List JsonValue)
  | obj (fields : List (String × JsonValue))

/-- Embeds `_json_type`: the chain of `isinstance` tests becomes a match on
the disjoint constructors, in the same order as the source; the `bool` test
precedes the numeric one (in Python `bool` is a subtype of `int`, which is
why the source both tests `bool` first and excludes it from the numeric
branch — with disjoint constructors a boolean can only reach the `bool`
arm), and `int` and `float` both yield the single tag `number`. -/
def json_type : JsonValue → String
  | .null => "null"
  | .bool _ => "boolean"
  | .int _ => "number"
  | .float _ => "number"
  | .str _ => "string"
  | .arr _ => "array"
  | .obj _ => "object"

/-- Embeds line 97 of the source, `base or "$"`: the recorded path for the
current value is `"$"` when the running path is the empty string. -/
def pathLabel (base : String) : String := if base = "" then "$" else base

/-- Embeds line 101, `f"{base}.{k}" if base else k`: the running path of a
mapping entry. -/
def childPath (base k : String) : String :=
  if base = "" then k else base ++ "." ++ k

/-- Embeds line 107, `f"{base}[]" if base else "[]"`: the running path of
sampled array elements. -/
def arrPath (base : String) : String := if base = "" then "[]" else base ++ "[]"

mutual

/-- Embeds `walk_json(obj, base)`: record `(base or "$", _json_type(obj))`,
then recurse into all mapping entries, or into the first five array
elements (`obj[:5]`), or stop at scalars. The Python default for `base` is
the empty string. -/
def walk_json : JsonValue → String → List (String × String)
  | .null, base => [(pathLabel base, json_type .null)]
  | .bool b, base => [(pathLabel base, json_type (.bool b))]
  | .int n, base => [(pathLabel base, json_type (.int n))]
  | .float q, base => [(pathLabel base, json_type (.float q))]
  | .str s, base => [(pathLabel base, json_type (.str s))]
  | .arr elems, base =>
    (pathLabel base, json_type (.arr elems)) :: walkElems elems 5 base
  | .obj fields, base =>
    (pathLabel base, json_type (.obj fields)) :: walkFields fields base

/-- The `for k, v in obj.items()` loop of `walk_json`: walk each mapping
value under the path `childPath base k` and concatenate the results. -/
def walkFields : List (String × JsonValue) → String → List (String × String)
  | [], _ => []
  | (k, v) :: rest, base => walk_json v (childPath base k) ++ walkFields rest base

/-- The `for i, el in enumerate(obj[:5])` loop of `walk_json`: walk the
array elements under the path `arrPath base`, with a countdown implementing
the `[:5]` sampling slice. -/
def walkElems : List JsonValue → Nat → String → List (String × String)
  | [], _, _ => []
  | _ :: _, 0, _ => []
  | v :: rest, n + 1, base => walk_json v (arrPath base) ++ walkElems rest n base

end

mutual

/-- Node count of a JSON value (every mapping entry and every array element
counted); used to bound the length of the walker's output. -/
def jsonSize : JsonValue → Nat
  | .null => 1
  | .bool _ => 1
  | .int _ => 1
  | .float _ => 1
  | .str _ => 1
  | .arr elems => 1 + elemsSize elems
  | .obj fields => 1 + fieldsSize fields

/-- Total node count of the values of a field list. -/
def fieldsSize : List (String × JsonValue) → Nat
  | [] => 0
  | (_, v) :: rest => jsonSize v + fieldsSize rest

/-- Total node count of an element list. -/
def elemsSize : List JsonValue → Nat
  | [] => 0
  | v :: rest => jsonSize v + elemsSize rest

end

/-- Embeds the dataclass `FileSchema`: a file identifier (the source keeps
`Path` objects but always compares and reports them through `str(...)`, so
the identifier is a string here) together with the finite map from JSON
path to the set of observed types. The Python dict is embedded as an
association list. -/
structure FileSchema where
  path : String
  path_types : List (String × Finset String)

/-- Embeds the accumulation loop of `analyze_files` building
`d: Dict[str, Set[str]]` from the walker's pairs: `d[path].add(typ)` on a
`defaultdict(set)`, i.e. extend the set at an existing key or append a new
singleton entry. -/
def addPair : List (String × Finset String) → String × String → List (String × Finset String)
  | [], e => [(e.1, {e.2})]
  | (p, ts) :: rest, e =>
    if p = e.1 then (p, insert e.2 ts) :: rest else (p, ts) :: addPair rest e

/-- Embeds the `for path, typ in pairs` loop of `analyze_files`. -/
def collectPathTypes (pairs : List (String × String)) : List (String × Finset String) :=
  pairs.foldl addPair []

/-- Embeds one iteration of `analyze_files`: a file whose text fails to
parse (`except` branch) contributes the synthetic schema
`{"$": {"invalid_json"}}`; a file that parses contributes the collected
pairs of `walk_json(obj, "$")`. -/
def analyzeOne : String × Option JsonValue → FileSchema
  | (name, none) => ⟨name, [("$", {"invalid_json"})]⟩
  | (name, some obj) => ⟨name, collectPathTypes (walk_json obj "$")⟩

/-- Embeds `analyze_files`: every corpus file (name paired with its parse
outcome) contributes exactly one `FileSchema`, in order. -/
def analyze_files (files : List (String × Option JsonValue)) : List FileSchema :=
  files.map analyzeOne

/-- The pre-finalization merge state of `merge_schemas`: the dict
`result: Dict[str, {"types": set, "files": set}]` is embedded as the
`Finset` of present keys plus the two per-key set-valued maps (both empty
off the present keys). -/
structure MergeAcc where
  paths : Finset String
  typesAt : String → Finset String
  filesAt : String → Finset String

/-- The empty `result` dict. -/
def emptyAcc : MergeAcc := ⟨∅, fun _ => ∅, fun _ => ∅⟩

/-- Embeds one iteration of the inner loop of `merge_schemas`:
`rec = result.setdefault(path, {...}); rec["types"].update(types);
rec["files"].add(str(s.path))`. -/
def recordEntry (fname : String) (acc : MergeAcc) (e : String × Finset String) : MergeAcc :=
  { paths := insert e.1 acc.paths
    typesAt := fun p => if p = e.1 then acc.typesAt p ∪ e.2 else acc.typesAt p
    filesAt := fun p => if p = e.1 then insert fname (acc.filesAt p) else acc.filesAt p }

/-- Embeds the inner loop `for path, types in s.path_types.items()`. -/
def mergeFile (acc : MergeAcc) (s : FileSchema) : MergeAcc :=
  s.path_types.foldl (recordEntry s.path) acc

/-- Embeds the outer loop `for s in schemas` of `merge_schemas`. -/
def mergeAcc (schemas : List FileSchema) : MergeAcc :=
  schemas.foldl mergeFile emptyAcc

/-- Embeds `all_files = {s.path for s in schemas}` (under `str`). -/
def all_files (schemas : List FileSchema) : Finset String :=
  (schemas.map FileSchema.path).toFinset

/-- A finalized per-path record of the merged schema: the three sorted
lists produced by the finalization loop of `merge_schemas`. -/
structure PathRecord where
  types : List String
  files : List String
  missing_in_files : List String

/-- Embeds the finalization loop body of `merge_schemas`:
`rec["types"] = sorted(...)`, `rec["files"] = sorted(...)`,
`rec["missing_in_files"] = sorted(all_files - files)`. -/
def finalizeRecord (allF types files : Finset String) : PathRecord :=
  { types := types.sort strle
    files := files.sort strle
    missing_in_files := (allF \ files).sort strle }

/-- The finalized merged schema: the set of observed paths together with
the finalized record of every path. -/
structure MergedSchema where
  paths : Finset String
  record : String → PathRecord

/-- Embeds `merge_schemas`: fold all per-file schemas into the accumulator,
then finalize every record. -/
def merge_schemas (schemas : List FileSchema) : MergedSchema :=
  { paths := (mergeAcc schemas).paths
    record := fun p =>
      finalizeRecord (all_files schemas) ((mergeAcc schemas).typesAt p)
        ((mergeAcc schemas).filesAt p) }

/-- Embeds the comprehension of `summarize_schema` selecting
`len(r.get("types", [])) > 1`. -/
def paths_with_type_conflict (schemas : List FileSchema) : Finset String :=
  (merge_schemas schemas).paths.filter
    (fun p => 1 < ((merge_schemas schemas).record p).types.length)

/-- Embeds the comprehension of `summarize_schema` selecting truthy
`r.get("missing_in_files")`, i.e. a non-empty missing list. -/
def paths_missing (schemas : List FileSchema) : Finset String :=
  (merge_schemas schemas).paths.filter
    (fun p => ((merge_schemas schemas).record p).missing_in_files ≠ [])

/-- Embeds the comprehension of `summarize_schema` selecting
`len(r.get("files", [])) == 1`. -/
def unique_paths (schemas : List FileSchema) : Finset String :=
  (merge_schemas schemas).paths.filter
    (fun p => ((merge_schemas schemas).record p).files.length = 1)

theorem paths_foldl_entries (fname : String) (l : List (String × Finset String))
    (acc : MergeAcc) (q : String) :
    q ∈ (l.foldl (recordEntry fname) acc).paths ↔
      q ∈ acc.paths ∨ ∃ e ∈ l, e.1 = q := by
  induction l generalizing acc with
  | nil => simp
  | cons e l ih =>
    rw [List.foldl_cons, ih]
    simp only [recordEntry, Finset.mem_insert, List.mem_cons]
    constructor
    · rintro ((h | h) | ⟨e', he', h⟩)
      · exact Or.inr ⟨e, Or.inl rfl, h.symm⟩
      · exact Or.inl h
      · exact Or.inr ⟨e', Or.inr he', h⟩
    · rintro (h | ⟨e', (rfl | he'), h⟩)
      · exact Or.inl (Or.inr h)
      · exact Or.inl (Or.inl h.symm)
      · exact Or.inr ⟨e', he', h⟩

theorem typesAt_foldl_entries (fname : String) (l : List (String × Finset String))
    (acc : MergeAcc) (p t : String) :
    t ∈ (l.foldl (recordEntry fname) acc).typesAt p ↔
      t ∈ acc.typesAt p ∨ ∃ e ∈ l, e.1 = p ∧ t ∈ e.2 := by
  induction l generalizing acc with
  | nil => simp
  | cons e l ih =>
    rw [List.foldl_cons, ih]
    simp only [recordEntry, List.mem_cons]
    by_cases hp : p = e.1
    · subst hp
      rw [if_pos rfl]
      simp only [Finset.mem_union]
      constructor
      · rintro ((h | h) | ⟨e', he', h1, h2⟩)
        · exact Or.inl h
        · exact Or.inr ⟨e, Or.inl rfl, rfl, h⟩
        · exact Or.inr ⟨e', Or.inr he', h1, h2⟩
      · rintro (h | ⟨e', (rfl | he'), h1, h2⟩)
        · exact Or.inl (Or.inl h)
        · exact Or.inl (Or.inr h2)
        · exact Or.inr ⟨e', he', h1, h2⟩
    · rw [if_neg hp]
      constructor
      · rintro (h | ⟨e', he', h1, h2⟩)
        · exact Or.inl h
        · exact Or.inr ⟨e', Or.inr he', h1, h2⟩
      · rintro (h | ⟨e', (rfl | he'), h1, h2⟩)
        · exact Or.inl h
        · exact absurd h1.symm hp
        · exact Or.inr ⟨e', he', h1, h2⟩

theorem filesAt_foldl_entries (fname : String) (l : List (String × Finset String))
    (acc : MergeAcc) (p f : String) :
    f ∈ (l.foldl (recordEntry fname) acc).filesAt p ↔
      f ∈ acc.filesAt p ∨ (f = fname ∧ ∃ e ∈ l, e.1 = p) := by
  induction l generalizing acc with
  | nil => simp
  | cons e l ih =>
    rw [List.foldl_cons, ih]
    simp only [recordEntry, List.mem_cons]
    by_cases hp : p = e.1
    · subst hp
      rw [if_pos rfl]
      simp only [Finset.mem_insert]
      constructor
      · rintro ((h | h) | ⟨hf, e', he', h1⟩)
        · exact Or.inr ⟨h, e, Or.inl rfl, rfl⟩
        · exact Or.inl h
        · exact Or.inr ⟨hf, e', Or.inr he', h1⟩
      · rintro (h | ⟨hf, e', (rfl | he'), h1⟩)
        · exact Or.inl (Or.inr h)
        · exact Or.inl (Or.inl hf)
        · exact Or.inr ⟨hf, e', he', h1⟩
    · rw [if_neg hp]
      constructor
      · rintro (h | ⟨hf, e', he', h1⟩)
        · exact Or.inl h
        · exact Or.inr ⟨hf, e', Or.inr he', h1⟩
      · rintro (h | ⟨hf, e', (rfl | he'), h1⟩)
        · exact Or.inl h
        · exact absurd h1.symm hp
        · exact Or.inr ⟨hf, e', he', h1⟩

theorem mem_paths_mergeAcc (schemas : List FileSchema) (q : String) :
    q ∈ (mergeAcc schemas).paths ↔
      ∃ s ∈ schemas, ∃ e ∈ s.path_types, e.1 = q := by
  suffices h : ∀ acc : MergeAcc, q ∈ (schemas.foldl mergeFile acc).paths ↔
      q ∈ acc.paths ∨ ∃ s ∈ schemas, ∃ e ∈ s.path_types, e.1 = q by
    rw [mergeAcc, h emptyAcc]
    simp [emptyAcc]
  induction schemas with
  | nil => simp
  | cons s l ih =>
    intro acc
    rw [List.foldl_cons, ih, mergeFile, paths_foldl_entries]
    simp only [List.mem_cons]
    constructor
    · rintro ((h | ⟨e, he, h⟩) | ⟨s', hs', e', he', h⟩)
      · exact Or.inl h
      · exact Or.inr ⟨s, Or.inl rfl, e, he, h⟩
      · exact Or.inr ⟨s', Or.inr hs', e', he', h⟩
    · rintro (h | ⟨s', (rfl | hs'), e', he', h⟩)
      · exact Or.inl (Or.inl h)
      · exact Or.inl (Or.inr ⟨e', he', h⟩)
      · exact Or.inr ⟨s', hs', e', he', h⟩

theorem mem_typesAt_mergeAcc (schemas : List FileSchema) (p t : String) :
    t ∈ (mergeAcc schemas).typesAt p ↔
      ∃ s ∈ schemas, ∃ e ∈ s.path_types, e.1 = p ∧ t ∈ e.2 := by
  suffices h : ∀ acc : MergeAcc, t ∈ (schemas.foldl mergeFile acc).typesAt p ↔
      t ∈ acc.typesAt p ∨ ∃ s ∈ schemas, ∃ e ∈ s.path_types, e.1 = p ∧ t ∈ e.2 by
    rw [mergeAcc, h emptyAcc]
    simp [emptyAcc]
  induction schemas with
  | nil => simp
  | cons s l ih =>
    intro acc
    rw [List.foldl_cons, ih, mergeFile, typesAt_foldl_entries]
    simp only [List.mem_cons]
    constructor
    · rintro ((h | ⟨e, he, h1, h2⟩) | ⟨s', hs', e', he', h1, h2⟩)
      · exact Or.inl h
      · exact Or.inr ⟨s, Or.inl rfl, e, he, h1, h2⟩
      · exact Or.inr ⟨s', Or.inr hs', e', he', h1, h2⟩
    · rintro (h | ⟨s', (rfl | hs'), e', he', h1, h2⟩)
      · exact Or.inl (Or.inl h)
      · exact Or.inl (Or.inr ⟨e', he', h1, h2⟩)
      · exact Or.inr ⟨s', hs', e', he', h1, h2⟩

theorem mem_filesAt_mergeAcc (schemas : List FileSchema) (p f : String) :
    f ∈ (mergeAcc schemas).filesAt p ↔
      ∃ s ∈ schemas, s.path = f ∧ ∃ e ∈ s.path_types, e.1 = p := by
  suffices h : ∀ acc : MergeAcc, f ∈ (schemas.foldl mergeFile acc).filesAt p ↔
      f ∈ acc.filesAt p ∨ ∃ s ∈ schemas, s.path = f ∧ ∃ e ∈ s.path_types, e.1 = p by
    rw [mergeAcc, h emptyAcc]
    simp [emptyAcc]
  induction schemas with
  | nil => simp
  | cons s l ih =>
    intro acc
    rw [List.foldl_cons, ih, mergeFile, filesAt_foldl_entries]
    simp only [List.mem_cons]
    constructor
    · rintro ((h | ⟨hf, e, he, h1⟩) | ⟨s', hs', hf, e', he', h1⟩)
      · exact Or.inl h
      · exact Or.inr ⟨s, Or.inl rfl, hf.symm, e, he, h1⟩
      · exact Or.inr ⟨s', Or.inr hs', hf, e', he', h1⟩
    · rintro (h | ⟨s', (rfl | hs'), hf, e', he', h1⟩)
      · exact Or.inl (Or.inl h)
      · exact Or.inl (Or.inr ⟨hf.symm, e', he', h1⟩)
      · exact Or.inr ⟨s', hs', hf, e', he', h1⟩

/-- C1: merging the per-file schemas of a corpus in any permutation of file
order yields an identical finalized MergedSchema — the same set of paths
and, for every path, the same finalized record (sorted types, sorted files,
sorted missing_in_files). -/
theorem merge_schemas_order_independent (l₁ l₂ : List FileSchema) (h : l₁.Perm l₂) :
    (merge_schemas l₁).paths = (merge_schemas l₂).paths ∧
    (merge_schemas l₁).record = (merge_schemas l₂).record := by
  have hty : ∀ p, (mergeAcc l₁).typesAt p = (mergeAcc l₂).typesAt p := fun p =>
    Finset.ext fun t => by simp only [mem_typesAt_mergeAcc, h.mem_iff]
  have hfi : ∀ p, (mergeAcc l₁).filesAt p = (mergeAcc l₂).filesAt p := fun p =>
    Finset.ext fun f => by simp only [mem_filesAt_mergeAcc, h.mem_iff]
  have haf : all_files l₁ = all_files l₂ :=
    Finset.ext fun f => by
      simp only [all_files, List.mem_toFinset, List.mem_map, h.mem_iff]
  refine ⟨Finset.ext fun q => ?_, funext fun p => ?_⟩
  · show q ∈ (mergeAcc l₁).paths ↔ q ∈ (mergeAcc l₂).paths
    simp only [mem_paths_mergeAcc, h.mem_iff]
  · show finalizeRecord (all_files l₁) ((mergeAcc l₁).typesAt p)
        ((mergeAcc l₁).filesAt p) =
      finalizeRecord (all_files l₂) ((mergeAcc l₂).typesAt p)
        ((mergeAcc l₂).filesAt p)
    rw [haf, hty p, hfi p]

/-- A two-file corpus used to witness order independence. -/
def fsW1 : FileSchema := ⟨"w1.json", [("$", {"object"}), ("a", {"number"})]⟩

/-- A second file of the witness corpus. -/
def fsW2 : FileSchema :=
  ⟨"w2.json", [("$", {"object"}), ("a", {"string"}), ("b", {"null"})]⟩

/-- Witness for C1 at a concrete two-file corpus and its transposition. -/
theorem merge_schemas_order_independent_witness :
    (merge_schemas [fsW1, fsW2]).paths = (merge_schemas [fsW2, fsW1]).paths ∧
    (merge_schemas [fsW1, fsW2]).record = (merge_schemas [fsW2, fsW1]).record :=
  merge_schemas_order_independent [fsW1, fsW2] [fsW2, fsW1]
    (List.Perm.swap fsW2 fsW1 [])

/-- C7: in the finalized merged schema, every path's `missing_in_files`
holds exactly the corpus files that do not contain the path, and the three
finalized lists are sorted (in the embedded Python string order `strle`). -/
theorem finalized_missing_and_sorted (schemas : List FileSchema) (p : String) :
    (∀ f, f ∈ ((merge_schemas schemas).record p).missing_in_files ↔
      f ∈ all_files schemas ∧ f ∉ ((merge_schemas schemas).record p).files) ∧
    List.Sorted strle ((merge_schemas schemas).record p).types ∧
    List.Sorted strle ((merge_schemas schemas).record p).files ∧
    List.Sorted strle ((merge_schemas schemas).record p).missing_in_files := by
  refine ⟨fun f => ?_, Finset.sort_sorted _ _, Finset.sort_sorted _ _,
    Finset.sort_sorted _ _⟩
  show f ∈ (all_files schemas \ (mergeAcc schemas).filesAt p).sort strle ↔
    f ∈ all_files schemas ∧ f ∉ ((mergeAcc schemas).filesAt p).sort strle
  rw [Finset.mem_sort, Finset.mem_sdiff, Finset.mem_sort]

theorem addPair_snd_nonempty : ∀ (d : List (String × Finset String)) (e : String × String),
    (∀ x ∈ d, x.2.Nonempty) → ∀ x ∈ addPair d e, x.2.Nonempty
  | [], e, _, x, hx => by
    simp only [addPair, List.mem_singleton] at hx
    subst hx
    exact ⟨e.2, Finset.mem_singleton_self e.2⟩
  | (p, ts) :: d, e, hd, x, hx => by
    rw [addPair] at hx
    by_cases hpe : p = e.1
    · rw [if_pos hpe] at hx
      rcases List.mem_cons.mp hx with rfl | hx
      · exact ⟨e.2, Finset.mem_insert_self e.2 ts⟩
      · exact hd x (List.mem_cons_of_mem _ hx)
    · rw [if_neg hpe] at hx
      rcases List.mem_cons.mp hx with rfl | hx
      · exact hd (p, ts) (List.mem_cons_self _ _)
      · exact addPair_snd_nonempty d e (fun y hy => hd y (List.mem_cons_of_mem _ hy)) x hx

theorem collectPathTypes_snd_nonempty (pairs : List (String × String)) :
    ∀ x ∈ collectPathTypes pairs, x.2.Nonempty := by
  suffices h : ∀ acc : List (String × Finset String), (∀ x ∈ acc, x.2.Nonempty) →
      ∀ x ∈ pairs.foldl addPair acc, x.2.Nonempty from h [] (by simp)
  induction pairs with
  | nil => intro acc hacc; simpa using hacc
  | cons e l ih =>
    intro acc hacc
    rw [List.foldl_cons]
    exact ih (addPair acc e) (addPair_snd_nonempty acc e hacc)

theorem analyze_entries_nonempty (files : List (String × Option JsonValue))
    (s : FileSchema) (hs : s ∈ analyze_files files) :
    ∀ e ∈ s.path_types, e.2.Nonempty := by
  rw [analyze_files] at hs
  obtain ⟨f, _, rfl⟩ := List.mem_map.mp hs
  obtain ⟨name, v⟩ := f
  cases v with
  | none =>
    intro e he
    simp only [analyzeOne, List.mem_singleton] at he
    subst he
    exact ⟨"invalid_json", Finset.mem_singleton_self _⟩
  | some obj => exact fun e he => collectPathTypes_snd_nonempty _ e he

/-- C9: every path present in a merged schema produced from `analyze_files`
output has a non-empty types list and a non-empty files list — a record
exists only because at least one file exhibited the path with at least one
observed type. -/
theorem merged_record_nonempty (files : List (String × Option JsonValue)) (p : String)
    (hp : p ∈ (merge_schemas (analyze_files files)).paths) :
    ((merge_schemas (analyze_files files)).record p).types ≠ [] ∧
    ((merge_schemas (analyze_files files)).record p).files ≠ [] := by
  have hp' : p ∈ (mergeAcc (analyze_files files)).paths := hp
  rw [mem_paths_mergeAcc] at hp'
  obtain ⟨s, hs, e, he, rfl⟩ := hp'
  obtain ⟨t, ht⟩ := analyze_entries_nonempty files s hs e he
  have h1 : t ∈ (mergeAcc (analyze_files files)).typesAt e.1 :=
    (mem_typesAt_mergeAcc _ _ _).mpr ⟨s, hs, e, he, rfl, ht⟩
  have h2 : s.path ∈ (mergeAcc (analyze_files files)).filesAt e.1 :=
    (mem_filesAt_mergeAcc _ _ _).mpr ⟨s, hs, rfl, e, he, rfl⟩
  constructor
  · show ((mergeAcc (analyze_files files)).typesAt e.1).sort strle ≠ []
    intro hnil
    have hmem := (Finset.mem_sort strle).mpr h1
    rw [hnil] at hmem
    exact absurd hmem (List.not_mem_nil t)
  · show ((mergeAcc (analyze_files files)).filesAt e.1).sort strle ≠ []
    intro hnil
    have hmem := (Finset.mem_sort strle).mpr h2
    rw [hnil] at hmem
    exact absurd hmem (List.not_mem_nil s.path)

/-- A corpus with one unparsable and one valid file, used as witness input. -/
def c9files : List (String × Option JsonValue) :=
  [("bad.json", none), ("good.json", some (.obj [("a", .int 1)]))]

/-- Witness for C9 at a concrete corpus and the path `$`. -/
theorem merged_record_nonempty_witness :
    ((merge_schemas (analyze_files c9files)).record "$").types ≠ [] ∧
    ((merge_schemas (analyze_files c9files)).record "$").files ≠ [] :=
  merged_record_nonempty c9files "$" (by decide)

/-- C2: every corpus file contributes exactly one FileSchema; a file whose
text does not parse contributes exactly the single record `$ ↦
{invalid_json}` and ends up, together with its name, in the finalized
merged record at `$`; files that parse are analyzed normally. The merge is
a total function, so it never aborts however many entries fail to parse. -/
theorem analysis_total_over_invalid (files : List (String × Option JsonValue)) :
    (analyze_files files).length = files.length ∧
    (∀ name, (name, (none : Option JsonValue)) ∈ files →
      FileSchema.mk name [("$", ({"invalid_json"} : Finset String))] ∈ analyze_files files ∧
      "invalid_json" ∈ ((merge_schemas (analyze_files files)).record "$").types ∧
      name ∈ ((merge_schemas (analyze_files files)).record "$").files) ∧
    (∀ name v, (name, some v) ∈ files →
      FileSchema.mk name (collectPathTypes (walk_json v "$")) ∈ analyze_files files) := by
  refine ⟨List.length_map files analyzeOne, fun name h => ?_, fun name v h => ?_⟩
  · have hmem : FileSchema.mk name [("$", ({"invalid_json"} : Finset String))] ∈
        analyze_files files :=
      List.mem_map.mpr ⟨(name, none), h, rfl⟩
    refine ⟨hmem, ?_, ?_⟩
    · show "invalid_json" ∈ ((mergeAcc (analyze_files files)).typesAt "$").sort strle
      rw [Finset.mem_sort, mem_typesAt_mergeAcc]
      exact ⟨_, hmem, ("$", {"invalid_json"}), List.mem_singleton_self _, rfl,
        Finset.mem_singleton_self _⟩
    · show name ∈ ((mergeAcc (analyze_files files)).filesAt "$").sort strle
      rw [Finset.mem_sort, mem_filesAt_mergeAcc]
      exact ⟨_, hmem, rfl, ("$", {"invalid_json"}), List.mem_singleton_self _, rfl⟩
  · exact List.mem_map.mpr ⟨(name, some v), h, rfl⟩

/-- A corpus mixing one unparsable and one valid file, used as witness. -/
def c2files : List (String × Option JsonValue) :=
  [("bad.json", none), ("good.json", some (.obj [("a", .str "v")]))]

/-- Witness for C2 at a concrete mixed corpus. -/
theorem analysis_total_over_invalid_witness :
    (analyze_files c2files).length = c2files.length ∧
    FileSchema.mk "bad.json" [("$", ({"invalid_json"} : Finset String))] ∈
      analyze_files c2files ∧
    "invalid_json" ∈ ((merge_schemas (analyze_files c2files)).record "$").types :=
  ⟨(analysis_total_over_invalid c2files).1,
   ((analysis_total_over_invalid c2files).2.1 "bad.json" (List.Mem.head _)).1,
   ((analysis_total_over_invalid c2files).2.1 "bad.json" (List.Mem.head _)).2.1⟩

/-- C3 counterexample: the pipeline's initial call passes `"$"` as the
running path (line 136, `walk_json(obj, "$")`); since `"$"` is truthy, a
child of the root is recorded at `$.key`, not at the bare `key` the claim
states. -/
theorem root_child_bare_key_counterexample :
    childPath "$" "a" = "$.a" ∧
    walk_json (.obj [("a", .null)]) "$" = [("$", "object"), ("$.a", "null")] ∧
    ("a", "null") ∉ walk_json (.obj [("a", .null)]) "$" ∧
    (analyzeOne ("f.json", some (.obj [("a", .null)]))).path_types =
      [("$", {"object"}), ("$.a", {"null"})] :=
  ⟨by decide, by decide, by decide, by decide⟩

/-- C3 amended: recursing into a mapping entry with key `k` uses the child
path `base.k` whenever the running path `base` is non-empty — in particular
for the `$` passed by `analyze_files` — and the bare `key` arises exactly
when the walker is invoked with its default empty running path, in which
case the root itself is recorded as `$`. -/
theorem mapping_child_path (base k : String) (v : JsonValue) (h : base ≠ "") :
    walk_json (.obj [(k, v)]) base =
      (base, "object") :: walk_json v (base ++ "." ++ k) ∧
    walk_json (.obj [(k, v)]) "" = ("$", "object") :: walk_json v k := by
  constructor
  · show (pathLabel base, json_type (.obj [(k, v)])) ::
      (walk_json v (childPath base k) ++ walkFields [] base) = _
    rw [pathLabel, if_neg h, childPath, if_neg h]
    simp [json_type, walkFields]
  · show (pathLabel "", json_type (.obj [(k, v)])) ::
      (walk_json v (childPath "" k) ++ walkFields [] "") = _
    simp [pathLabel, childPath, json_type, walkFields]

/-- Witness for the amended C3 at the pipeline's `$` running path. -/
theorem mapping_child_path_witness :
    walk_json (.obj [("a", .null)]) "$" =
      ("$", "object") :: walk_json .null ("$" ++ "." ++ "a") ∧
    walk_json (.obj [("a", .null)]) "" = ("$", "object") :: walk_json .null "a" :=
  mapping_child_path "$" "a" .null (by decide)

/-- The P3 document of the spec. -/
def docP3 : JsonValue :=
  .obj [("a", .bool true), ("b", .int 1), ("c", .float (3 / 2 : ℚ)), ("d", .null),
        ("e", .str "x"), ("f", .arr []), ("g", .obj [])]

/-- C4: walking the P3 document yields exactly the tags boolean, number,
number, null, string, array, object at the bare paths `a`..`g` (the
walker's default running path is the empty string, under which top-level
keys are bare); a boolean is always tagged `boolean` and never `number`,
and both integers and floats receive the single tag `number`. -/
theorem walk_type_tags :
    walk_json docP3 "" =
      [("$", "object"), ("a", "boolean"), ("b", "number"), ("c", "number"),
       ("d", "null"), ("e", "string"), ("f", "array"), ("g", "object")] ∧
    (∀ b : Bool, json_type (.bool b) = "boolean") ∧
    (∀ b : Bool, json_type (.bool b) ≠ "number") ∧
    (∀ n : Int, json_type (.int n) = "number") ∧
    (∀ q : ℚ, json_type (.float q) = "number") :=
  ⟨by decide, fun _ => rfl, fun _ => by show ("boolean" : String) ≠ "number"; decide,
   fun _ => rfl, fun _ => rfl⟩

theorem walkElems_stops : ∀ (l extra : List JsonValue) (n : Nat) (base : String),
    l.length = n → walkElems (l ++ extra) n base = walkElems l n base
  | [], extra, n, base, h => by
    have hn : n = 0 := by simpa using h.symm
    subst hn
    cases extra with
    | nil => rfl
    | cons e rest => rfl
  | v :: l, extra, n, base, h => by
    cases n with
    | zero => simp at h
    | succ m =>
      have hm : l.length = m := by simpa using h
      show walk_json v (arrPath base) ++ walkElems (l ++ extra) m base =
        walk_json v (arrPath base) ++ walkElems l m base
      rw [walkElems_stops l extra m base hm]

/-- The P4 document of the spec: ten numbers under `items`. -/
def docP4 : JsonValue :=
  .obj [("items", .arr [.int 1, .int 2, .int 3, .int 4, .int 5, .int 6, .int 7,
    .int 8, .int 9, .int 10])]

/-- C5: the walker samples only the first five array elements — appending
anything after a five-element prefix leaves the walk unchanged — and on the
P4 document the children of `items[]` come from indices 0–4 only, with
observed type set exactly `{number}`. -/
theorem array_sampling_bound (l extra : List JsonValue) (base : String)
    (h : l.length = 5) :
    walk_json (.arr (l ++ extra)) base = walk_json (.arr l) base ∧
    walk_json docP4 "" =
      [("$", "object"), ("items", "array"), ("items[]", "number"),
       ("items[]", "number"), ("items[]", "number"), ("items[]", "number"),
       ("items[]", "number")] ∧
    ("items[]", ({"number"} : Finset String)) ∈ collectPathTypes (walk_json docP4 "") := by
  refine ⟨?_, by decide, by decide⟩
  show (pathLabel base, json_type (.arr (l ++ extra))) :: walkElems (l ++ extra) 5 base =
    (pathLabel base, json_type (.arr l)) :: walkElems l 5 base
  rw [walkElems_stops l extra 5 base h]
  simp [json_type]

/-- Witness for C5 at a concrete five-element prefix plus two extras. -/
theorem array_sampling_bound_witness :
    walk_json (.arr ([.int 1, .int 2, .int 3, .int 4, .int 5] ++ [.int 6, .str "x"]))
        "items" =
      walk_json (.arr [.int 1, .int 2, .int 3, .int 4, .int 5]) "items" ∧
    walk_json docP4 "" =
      [("$", "object"), ("items", "array"), ("items[]", "number"),
       ("items[]", "number"), ("items[]", "number"), ("items[]", "number"),
       ("items[]", "number")] ∧
    ("items[]", ({"number"} : Finset String)) ∈ collectPathTypes (walk_json docP4 "") :=
  array_sampling_bound [.int 1, .int 2, .int 3, .int 4, .int 5] [.int 6, .str "x"]
    "items" (by decide)

/-- The P6 document of the spec: an empty array under `items`. -/
def docP6 : JsonValue := .obj [("items", .arr [])]

/-- C6: an empty array contributes only its own `(path, array)` pair — the
walk of `{"items": []}` contains exactly one `(items, array)` entry and no
entry at all under `items[]`. -/
theorem empty_array_walk :
    (∀ base, walk_json (.arr []) base = [(pathLabel base, "array")]) ∧
    walk_json docP6 "" = [("$", "object"), ("items", "array")] ∧
    (walk_json docP6 "").count ("items", "array") = 1 ∧
    (walk_json docP6 "").filter (fun e => e.1 == "items[]") = [] :=
  ⟨fun _ => rfl, by decide, by decide, by decide⟩

/-- File A of the P5 scenario: `x.y` observed as a string. -/
def fsA : FileSchema :=
  ⟨"A", [("$", {"object"}), ("x", {"object"}), ("x.y", {"string"})]⟩

/-- File B of the P5 scenario: `x.y` observed as a number. -/
def fsB : FileSchema :=
  ⟨"B", [("$", {"object"}), ("x", {"object"}), ("x.y", {"number"})]⟩

/-- File C of the P5 scenario: `x.y` absent. -/
def fsC : FileSchema := ⟨"C", [("$", {"object"})]⟩

/-- C8: in the merge of the P5 corpus the record of `x.y` is
`types = [number, string]`, `files = [A, B]`, `missing_in_files = [C]`; the
path is classified as a type conflict (more than one type) and not as
unique (present in two files, not one). -/
theorem conflict_and_unique_derivation :
    ((merge_schemas [fsA, fsB, fsC]).record "x.y").types = ["number", "string"] ∧
    ((merge_schemas [fsA, fsB, fsC]).record "x.y").files = ["A", "B"] ∧
    ((merge_schemas [fsA, fsB, fsC]).record "x.y").missing_in_files = ["C"] ∧
    "x.y" ∈ paths_with_type_conflict [fsA, fsB, fsC] ∧
    "x.y" ∉ unique_paths [fsA, fsB, fsC] := by
  have ht : ((merge_schemas [fsA, fsB, fsC]).record "x.y").types = ["number", "string"] := by
    show ((mergeAcc [fsA, fsB, fsC]).typesAt "x.y").sort strle = _
    exact finset_sort_eq _ _ (by decide) (by decide) (by decide)
  have hf : ((merge_schemas [fsA, fsB, fsC]).record "x.y").files = ["A", "B"] := by
    show ((mergeAcc [fsA, fsB, fsC]).filesAt "x.y").sort strle = _
    exact finset_sort_eq _ _ (by decide) (by decide) (by decide)
  have hm : ((merge_schemas [fsA, fsB, fsC]).record "x.y").missing_in_files = ["C"] := by
    show ((all_files [fsA, fsB, fsC] \ (mergeAcc [fsA, fsB, fsC]).filesAt "x.y")).sort strle = _
    exact finset_sort_eq _ _ (by decide) (by decide) (by decide)
  refine ⟨ht, hf, hm, ?_, ?_⟩
  · rw [paths_with_type_conflict, Finset.mem_filter]
    refine ⟨by decide, ?_⟩
    rw [ht]
    decide
  · intro hmem
    rw [unique_paths, Finset.mem_filter] at hmem
    have habs := hmem.2
    rw [hf] at habs
    simp at habs

mutual

theorem walk_json_length_le : ∀ (v : JsonValue) (base : String),
    (walk_json v base).length ≤ jsonSize v
  | .null, _ => le_refl _
  | .bool _, _ => le_refl _
  | .int _, _ => le_refl _
  | .float _, _ => le_refl _
  | .str _, _ => le_refl _
  | .arr elems, base => by
    show ((pathLabel base, json_type (.arr elems)) :: walkElems elems 5 base).length ≤
      1 + elemsSize elems
    rw [List.length_cons]
    have h := walkElems_length_le elems 5 base
    omega
  | .obj fields, base => by
    show ((pathLabel base, json_type (.obj fields)) :: walkFields fields base).length ≤
      1 + fieldsSize fields
    rw [List.length_cons]
    have h := walkFields_length_le fields base
    omega

theorem walkFields_length_le : ∀ (fields : List (String × JsonValue)) (base : String),
    (walkFields fields base).length ≤ fieldsSize fields
  | [], _ => le_refl _
  | (k, v) :: rest, base => by
    show (walk_json v (childPath base k) ++ walkFields rest base).length ≤
      jsonSize v + fieldsSize rest
    rw [List.length_append]
    have h1 := walk_json_length_le v (childPath base k)
    have h2 := walkFields_length_le rest base
    omega

theorem walkElems_length_le : ∀ (elems : List JsonValue) (n : Nat) (base : String),
    (walkElems elems n base).length ≤ elemsSize elems
  | [], _, _ => le_refl _
  | _ :: _, 0, _ => Nat.zero_le _
  | v :: rest, n + 1, base => by
    show (walk_json v (arrPath base) ++ walkElems rest n base).length ≤
      jsonSize v + elemsSize rest
    rw [List.length_append]
    have h1 := walk_json_length_le v (arrPath base)
    have h2 := walkElems_length_le rest n base
    omega

end

theorem walk_json_length_pos (v : JsonValue) (base : String) :
    1 ≤ (walk_json v base).length := by
  cases v <;> exact Nat.succ_le_succ (Nat.zero_le _)

/-- C10: the Path Walker is a total function (its recursion, checked by
Lean, descends only into mapping values and the first five array elements,
all strict sub-values) and its output is a finite list: at least one pair
and at most one pair per node of the input document. -/
theorem walker_total_and_bounded (v : JsonValue) (base : String) :
    1 ≤ (walk_json v base).length ∧ (walk_json v base).length ≤ jsonSize v :=
  ⟨walk_json_length_pos v base, walk_json_length_le v base⟩
